import Mathlib

/-!
Shallow embedding of the game-session subsystem and the client hooks of the
CS4530 final project repository (forum + direct messaging + turn-based games).

The client hooks (`useGamePage`, `useNimGamePage`, `useDirectMessage`) are
embedded directly from their TypeScript source.  The server-side game session
engine (room state machine, subtraction-game move validator, join/leave
controller) is not part of the source tree, so it is modelled from the spec,
as marked in the doc comments below.
-/

/-- Room lifecycle status: `WAITING_TO_START → IN_PROGRESS → OVER`. -/
inductive Status
  | waitingToStart
  | inProgress
  | over
  deriving DecidableEq

/-- A recorded subtraction-game move: acting player and number of objects removed. -/
structure NimMove where
  playerID : String
  numObjects : Nat
  deriving DecidableEq

/-- Modelled from the spec: a `GameRoom` of the Game State Machine (§3), for the
subtraction game.  The server-side engine is not under the source tree; this
structure follows the spec data model: ordered roster, move log,
`remainingObjects`, status, optional winners. -/
structure GameRoom where
  players : List String
  moves : List NimMove
  remainingObjects : Nat
  status : Status
  winners : Option (List String)
  deriving DecidableEq

/-- Modelled from the spec: the error taxonomy of §7 (the constructors the
game actions can produce; `notStarted` stands for a move submitted to a room
still `WAITING_TO_START`, which the spec excludes but does not name). -/
inductive GameError
  | roomFull
  | alreadyJoined
  | gameOver
  | notStarted
  | notYourTurn
  | invalidMove
  deriving DecidableEq

/-- The subtraction game requires exactly 2 players (§3). -/
def maxPlayers : Nat := 2

/-- Turn index before a move is recorded: `moves.length mod players.length` (§4.2). -/
def turnIndex (r : GameRoom) : Nat :=
  r.moves.length % r.players.length

/-- Modelled from the spec: `join(roomID, playerID)` of the Join/Leave
Controller (§4.4).  Rejects with `GameOver` after the terminal state,
`AlreadyJoined` for a present player, `RoomFull` at capacity; otherwise appends
the player and flips the room to `IN_PROGRESS` exactly when the roster reaches
capacity. -/
def joinRoom (r : GameRoom) (p : String) : Except GameError GameRoom :=
  if r.status = Status.over then Except.error GameError.gameOver
  else if p ∈ r.players then Except.error GameError.alreadyJoined
  else if maxPlayers ≤ r.players.length then Except.error GameError.roomFull
  else if (r.players ++ [p]).length = maxPlayers then
    Except.ok { r with players := r.players ++ [p], status := Status.inProgress }
  else
    Except.ok { r with players := r.players ++ [p] }

/-- Modelled from the spec: the subtraction-game Move Validator (§4.2/§4.3).
`numObjects` must satisfy `1 ≤ numObjects ≤ 3` and `numObjects ≤
remainingObjects`, otherwise `InvalidMove`; on acceptance `remainingObjects`
decreases by `numObjects`, and reaching 0 is terminal with the acting player
the loser (misère rule): the other players are the winners. -/
def validateNim (r : GameRoom) (p : String) (n : Nat) : Except GameError GameRoom :=
  if 1 ≤ n ∧ n ≤ 3 ∧ n ≤ r.remainingObjects then
    if r.remainingObjects - n = 0 then
      Except.ok { r with
        moves := r.moves ++ [⟨p, n⟩],
        remainingObjects := r.remainingObjects - n,
        status := Status.over,
        winners := some (r.players.filter (fun q => q ≠ p)) }
    else
      Except.ok { r with
        moves := r.moves ++ [⟨p, n⟩],
        remainingObjects := r.remainingObjects - n }
  else Except.error GameError.invalidMove

/-- Modelled from the spec: `submitMove` of the Game State Machine (§4.2/§6).
Moves are accepted only while `IN_PROGRESS`, only from the player at the turn
index, and only if the validator accepts. -/
def submitMove (r : GameRoom) (p : String) (n : Nat) : Except GameError GameRoom :=
  if r.status = Status.over then Except.error GameError.gameOver
  else if r.status = Status.waitingToStart then Except.error GameError.notStarted
  else if r.players[turnIndex r]? = some p then validateNim r p n
  else Except.error GameError.notYourTurn

/-- Modelled from the spec: `leave(roomID, playerID)` of the Join/Leave
Controller (§4.4).  No-op if the player is absent or the room is `OVER`;
while `WAITING_TO_START` it only removes the player; while `IN_PROGRESS` it
triggers forfeiture: the remaining players are recorded as winners and the
room closes. -/
def leaveRoom (r : GameRoom) (p : String) : GameRoom :=
  if p ∈ r.players then
    match r.status with
    | Status.over => r
    | Status.waitingToStart => { r with players := r.players.erase p }
    | Status.inProgress =>
        { r with
          players := r.players.erase p,
          status := Status.over,
          winners := some (r.players.erase p) }
  else r

/-- An inbound engine action on one room (§6). -/
inductive GameAction
  | join (p : String)
  | leave (p : String)
  | move (p : String) (n : Nat)

/-- Modelled from the spec: the effect of one action on a room, with its
error result. -/
def stepE (r : GameRoom) : GameAction → Except GameError GameRoom
  | GameAction.join p => joinRoom r p
  | GameAction.leave p => Except.ok (leaveRoom r p)
  | GameAction.move p n => submitMove r p n

/-- The room after one action: a rejected action leaves the room unchanged. -/
def step (r : GameRoom) (a : GameAction) : GameRoom :=
  match stepE r a with
  | Except.ok r2 => r2
  | Except.error _ => r

/-- The room after a sequence of actions. -/
def runActions (r : GameRoom) (acts : List GameAction) : GameRoom :=
  acts.foldl step r

/-- Modelled from the spec: a freshly created subtraction-game room (§4.1):
empty roster, empty move log, `WAITING_TO_START`, no winners. -/
def initialRoom (n : Nat) : GameRoom :=
  { players := [], moves := [], remainingObjects := n,
    status := Status.waitingToStart, winners := none }

/-- Numeric rank of a status along the forward-only lifecycle. -/
def statusRank : Status → Nat
  | Status.waitingToStart => 0
  | Status.inProgress => 1
  | Status.over => 2

/-- The room invariants of §3: bounded roster, full roster while in progress,
winners recorded once over. -/
def RoomInv (r : GameRoom) : Prop :=
  r.players.length ≤ maxPlayers ∧
  (r.status = Status.inProgress → r.players.length = maxPlayers) ∧
  (r.status = Status.over → r.winners.isSome = true)

instance (r : GameRoom) : Decidable (RoomInv r) := by
  unfold RoomInv; infer_instance

/-- Folding a list of proposed moves through `submitMove`, stopping at the
first rejection. -/
def applyMoves (r : GameRoom) : List (String × Nat) → Except GameError GameRoom
  | [] => Except.ok r
  | (p, n) :: ms =>
    match submitMove r p n with
    | Except.ok r2 => applyMoves r2 ms
    | Except.error e => Except.error e

/-- Modelled from the spec: the snapshots the Broadcast Coordinator emits for
game-state changes of one room (§4.5): after every accepted move the new room
state is published; rejected actions publish nothing. -/
def moveSnapshots (r : GameRoom) : List GameAction → List GameRoom
  | [] => []
  | a :: as =>
    match stepE r a with
    | Except.ok r2 =>
      match a with
      | GameAction.move _ _ => r2 :: moveSnapshots r2 as
      | _ => moveSnapshots r2 as
    | Except.error _ => moveSnapshots r as

/-! Client hook `useGamePage` (src/client/src/hooks/useGamePage.ts). -/

/-- The game-type-specific `state` payload of a client `GameInstance`
(subtraction game fields used by the pages). -/
structure GameState where
  moves : List NimMove
  remainingObjects : Nat
  status : Status
  winners : Option (List String)
  deriving DecidableEq

/-- A client-side game snapshot as delivered in a `gameUpdate` payload. -/
structure GameInstance where
  gameID : String
  players : List String
  state : GameState
  deriving DecidableEq

/-- The `gameError` payload received by the client. -/
structure GameErrorPayload where
  error : String
  deriving DecidableEq

/-- The React state held by `useGamePage`: the `gameState` and `error`
state variables. -/
structure GamePageState where
  gameState : Option GameInstance
  error : Option String
  deriving DecidableEq

/-- `handleGameUpdate` of `useGamePage`: stores the received snapshot via
`setGameState(updatedState.gameState)`. -/
def handleGameUpdate (s : GamePageState) (u : GameInstance) : GamePageState :=
  { s with gameState := some u }

/-- `handleGameError` of `useGamePage`: stores the received message via
`setError(gameError.error)`. -/
def handleGameError (s : GamePageState) (e : GameErrorPayload) : GamePageState :=
  { s with error := some e.error }

/-! Client hook `useNimGamePage` (src/client/src/hooks/useAllGamesPage.ts,
second module of the file). -/

/-- Numeric value of a run of decimal digit characters. -/
def digitsVal (l : List Char) : Nat :=
  l.foldl (fun a c => a * 10 + (c.toNat - 48)) 0

/-- JavaScript `parseInt(value, 10)`: skip leading whitespace, read an
optional sign and the longest run of leading decimal digits; `none` stands
for `NaN` (no digits found). -/
def jsParseInt (s : String) : Option Int :=
  let l := s.data.dropWhile (fun c => c = ' ' ∨ c = '\t' ∨ c = '\n' ∨ c = '\r')
  match l with
  | '-' :: rest =>
    let ds := rest.takeWhile Char.isDigit
    if ds = [] then none else some (-(digitsVal ds : Int))
  | '+' :: rest =>
    let ds := rest.takeWhile Char.isDigit
    if ds = [] then none else some ((digitsVal ds : Int))
  | _ =>
    let ds := l.takeWhile Char.isDigit
    if ds = [] then none else some ((digitsVal ds : Int))

/-- The initial value of the `move` state variable: `useState<number>(0)`. -/
def initialMove : Int := 0

/-- `handleInputChange` of `useNimGamePage`: parse the input with
`parseInt(value, 10)` and update `move` only when the parse is not `NaN` and
the value lies in `[1, 3]`. -/
def handleInputChange (move : Int) (value : String) : Int :=
  match jsParseInt value with
  | some numValue => if 1 ≤ numValue ∧ numValue ≤ 3 then numValue else move
  | none => move

/-- Whether one input event would update the `move` state (its parse is a
number in `[1, 3]`). -/
def validNimInput (value : String) : Bool :=
  match jsParseInt value with
  | some numValue => 1 ≤ numValue ∧ numValue ≤ 3
  | none => false

/-- The inner move payload of the `makeMove` event emitted by
`handleMakeMove` of `useNimGamePage`. -/
structure MakeMovePayload where
  playerID : String
  numObjects : Int
  deriving DecidableEq

/-- `handleMakeMove` of `useNimGamePage`: emits the current `move` state as
`numObjects`, with the user's username as `playerID`. -/
def handleMakeMove (username : String) (move : Int) : MakeMovePayload :=
  { playerID := username, numObjects := move }

/-! Client hook `useDirectMessage` (src/client/src/hooks/useDirectMessage.ts). -/

/-- A chat message as rendered by the direct-message page. -/
structure ChatMessage where
  mid : String
  msg : String
  msgFrom : String
  deriving DecidableEq

/-- A client-side chat: identifier, participants and messages. -/
structure Chat where
  _id : String
  participants : List String
  messages : List ChatMessage
  deriving DecidableEq

/-- The payload of a `chatUpdate` socket event: the chat and the update type. -/
structure ChatUpdatePayload where
  chat : Chat
  type : String
  deriving DecidableEq

/-- The React state of `useDirectMessage` touched by `handleChatUpdate`:
the `chats` list and the selected chat. -/
structure DMState where
  chats : List Chat
  selectedChat : Option Chat
  deriving DecidableEq

/-- `handleChatUpdate` of `useDirectMessage`: on `created`, append the chat
only when the current user is a participant; on `newMessage`, replace the
matching chat in `chats` and in `selectedChat`; any other type throws
`Invalid chat update type`. -/
def handleChatUpdate (username : String) (s : DMState) (u : ChatUpdatePayload) :
    Except String DMState :=
  if u.type = "created" then
    if u.chat.participants.contains username then
      Except.ok { s with chats := s.chats ++ [u.chat] }
    else Except.ok s
  else if u.type = "newMessage" then
    Except.ok
      { s with
        chats := s.chats.map (fun c => if c._id = u.chat._id then u.chat else c),
        selectedChat :=
          s.selectedChat.map (fun c => if c._id = u.chat._id then u.chat else c) }
  else Except.error ("Invalid chat update type: " ++ u.type)

/-! Concrete rooms and payloads used to instantiate the theorems below. -/

/-- A 2-player subtraction-game room in progress with 2 objects left. -/
def roomTwoLeft : GameRoom :=
  { players := ["Alice", "Bob"], moves := [], remainingObjects := 2,
    status := Status.inProgress, winners := none }

/-- The room `roomTwoLeft` after Alice removes both remaining objects. -/
def roomTwoLeftDone : GameRoom :=
  { players := ["Alice", "Bob"], moves := [⟨"Alice", 2⟩], remainingObjects := 0,
    status := Status.over, winners := some ["Bob"] }

/-- A 2-player subtraction-game room still waiting to start. -/
def roomWaiting : GameRoom :=
  { players := ["Alice", "Bob"], moves := [], remainingObjects := 5,
    status := Status.waitingToStart, winners := none }

/-! Helper lemmas about the engine model. -/

/-- Everything an accepted `submitMove` guarantees: it ran while
`IN_PROGRESS` from the player at the turn index, the validator bounds held,
`remainingObjects` dropped by exactly `n`, the move was appended, the roster
is untouched, and the terminal/non-terminal outcomes. -/
theorem submitMove_ok_spec {r r2 : GameRoom} {p : String} {n : Nat}
    (h : submitMove r p n = Except.ok r2) :
    r.status = Status.inProgress ∧
    r.players[turnIndex r]? = some p ∧
    1 ≤ n ∧ n ≤ 3 ∧ n ≤ r.remainingObjects ∧
    r2.remainingObjects + n = r.remainingObjects ∧
    r2.moves = r.moves ++ [⟨p, n⟩] ∧
    r2.players = r.players ∧
    (r2.remainingObjects = 0 →
      r2.status = Status.over ∧
      r2.winners = some (r.players.filter (fun q => q ≠ p))) ∧
    (r2.remainingObjects ≠ 0 →
      r2.status = Status.inProgress ∧ r2.winners = r.winners) := by
  unfold submitMove at h
  split_ifs at h with h1 h2 h3
  · have hst : r.status = Status.inProgress := by
      cases hs : r.status
      · exact absurd hs h2
      · rfl
      · exact absurd hs h1
    unfold validateNim at h
    split_ifs at h with hb hz
    · obtain ⟨h1n, h3n, hrn⟩ := hb
      injection h with h
      subst h
      refine ⟨hst, h3, h1n, h3n, hrn, ?_, rfl, rfl, ?_, ?_⟩
      · simpa using Nat.sub_add_cancel hrn
      · intro _; exact ⟨rfl, rfl⟩
      · intro hne; exact absurd hz hne
    · obtain ⟨h1n, h3n, hrn⟩ := hb
      injection h with h
      subst h
      refine ⟨hst, h3, h1n, h3n, hrn, ?_, rfl, rfl, ?_, ?_⟩
      · simpa using Nat.sub_add_cancel hrn
      · intro hzero; exact absurd hzero hz
      · intro _; exact ⟨hst ▸ rfl, rfl⟩

/-- A rejected move leaves the room unchanged in the step semantics. -/
theorem step_move_error {r : GameRoom} {p : String} {n : Nat} {e : GameError}
    (h : submitMove r p n = Except.error e) :
    step r (GameAction.move p n) = r := by
  simp [step, stepE, h]

/-- C1: every accepted subtraction-game move of a 2-player room that reduces
`remainingObjects` to exactly 0 makes the game terminal, and the sole recorded
winner is the player who did not submit that move (misère rule). -/
theorem nim_terminal_move_other_player_wins
    (r r2 : GameRoom) (a b p : String) (n : Nat)
    (hp : r.players = [a, b]) (hab : a ≠ b)
    (h : submitMove r p n = Except.ok r2)
    (h0 : r2.remainingObjects = 0) :
    r2.status = Status.over ∧
    ((p = a ∧ r2.winners = some [b]) ∨ (p = b ∧ r2.winners = some [a])) := by
  obtain ⟨-, ht, -, -, -, -, -, -, hterm, -⟩ := submitMove_ok_spec h
  obtain ⟨hov, hw⟩ := hterm h0
  refine ⟨hov, ?_⟩
  have hpm : p ∈ r.players := List.getElem?_mem ht
  rw [hp] at hpm hw
  simp only [List.mem_cons, List.mem_singleton, List.not_mem_nil, or_false] at hpm
  rcases hpm with rfl | rfl
  · left
    refine ⟨rfl, ?_⟩
    rw [hw]
    simp [List.filter, hab.symm]
  · right
    refine ⟨rfl, ?_⟩
    rw [hw]
    simp [List.filter, hab]

/-- C1 witness: Alice removes the last 2 objects of `roomTwoLeft` and Bob is
the sole winner. -/
theorem nim_terminal_move_other_player_wins_witness :
    roomTwoLeftDone.status = Status.over ∧
    (("Alice" : String) = "Alice" ∧ roomTwoLeftDone.winners = some ["Bob"] ∨
     ("Alice" : String) = "Bob" ∧ roomTwoLeftDone.winners = some ["Alice"]) :=
  nim_terminal_move_other_player_wins roomTwoLeft roomTwoLeftDone "Alice" "Bob"
    "Alice" 2 (by decide) (by decide) (by rfl) (by decide)

/-- The validator never answers `NotYourTurn`: turn enforcement is the state
machine's job. -/
theorem validateNim_ne_notYourTurn (r : GameRoom) (p : String) (n : Nat) :
    validateNim r p n ≠ Except.error GameError.notYourTurn := by
  unfold validateNim
  split_ifs <;> simp

/-- C2: while `IN_PROGRESS`, the entitled player is
`players[moves.length mod players.length]`; a move by anyone else is rejected
with `NotYourTurn` and leaves the room (state and moves) unchanged, while the
entitled player is never rejected with `NotYourTurn`. -/
theorem turn_order_enforced (r : GameRoom) (p : String) (n : Nat)
    (hs : r.status = Status.inProgress) :
    (r.players[r.moves.length % r.players.length]? ≠ some p →
      submitMove r p n = Except.error GameError.notYourTurn ∧
      step r (GameAction.move p n) = r) ∧
    (r.players[r.moves.length % r.players.length]? = some p →
      submitMove r p n ≠ Except.error GameError.notYourTurn) := by
  constructor
  · intro hne
    have hsm : submitMove r p n = Except.error GameError.notYourTurn := by
      unfold submitMove turnIndex
      rw [hs]
      simp [hne]
    exact ⟨hsm, step_move_error hsm⟩
  · intro heq
    unfold submitMove turnIndex
    rw [hs]
    simp only [heq, if_true]
    simpa using validateNim_ne_notYourTurn r p n

/-- C2 witness: in `roomTwoLeft` the entitled player is Alice; Bob's move is
rejected with `NotYourTurn` and changes nothing. -/
theorem turn_order_enforced_witness :
    (roomTwoLeft.players[roomTwoLeft.moves.length % roomTwoLeft.players.length]? ≠
        some "Bob" →
      submitMove roomTwoLeft "Bob" 1 = Except.error GameError.notYourTurn ∧
      step roomTwoLeft (GameAction.move "Bob" 1) = roomTwoLeft) ∧
    (roomTwoLeft.players[roomTwoLeft.moves.length % roomTwoLeft.players.length]? =
        some "Bob" →
      submitMove roomTwoLeft "Bob" 1 ≠ Except.error GameError.notYourTurn) :=
  turn_order_enforced roomTwoLeft "Bob" 1 (by decide)

/-- C3: with the right player to move, a proposed subtraction-game move is
accepted only if `1 ≤ numObjects ≤ 3` and `numObjects ≤ remainingObjects`;
violating either bound yields `InvalidMove`, and acceptance decreases
`remainingObjects` by exactly `numObjects`. -/
theorem nim_move_validation (r : GameRoom) (p : String) (n : Nat)
    (hs : r.status = Status.inProgress)
    (ht : r.players[turnIndex r]? = some p) :
    (¬(1 ≤ n ∧ n ≤ 3 ∧ n ≤ r.remainingObjects) →
      submitMove r p n = Except.error GameError.invalidMove) ∧
    (∀ r2, submitMove r p n = Except.ok r2 →
      1 ≤ n ∧ n ≤ 3 ∧ n ≤ r.remainingObjects ∧
      r2.remainingObjects + n = r.remainingObjects) := by
  constructor
  · intro hb
    unfold submitMove
    rw [hs]
    simp only [ht, if_true]
    unfold validateNim
    simp [hb]
  · intro r2 h
    obtain ⟨-, -, h1, h3, hr, hsub, -⟩ := submitMove_ok_spec h
    exact ⟨h1, h3, hr, hsub⟩

/-- C3 witness: in `roomTwoLeft` (2 objects left) Alice's proposal of 3 is
rejected as `InvalidMove`, and her accepted proposal of 2 removes exactly 2. -/
theorem nim_move_validation_witness :
    submitMove roomTwoLeft "Alice" 3 = Except.error GameError.invalidMove ∧
    (1 ≤ 2 ∧ 2 ≤ 3 ∧ 2 ≤ roomTwoLeft.remainingObjects ∧
      roomTwoLeftDone.remainingObjects + 2 = roomTwoLeft.remainingObjects) :=
  ⟨(nim_move_validation roomTwoLeft "Alice" 3 (by decide) (by rfl)).1 (by decide),
   (nim_move_validation roomTwoLeft "Alice" 2 (by decide) (by rfl)).2
     roomTwoLeftDone (by rfl)⟩

/-- Invariants of a fully accepted move sequence: it consumes at least one
object per move, an empty sequence changes nothing, and a nonempty sequence
that exhausts the pile ends the game. -/
theorem applyMoves_spec {ms : List (String × Nat)} {r r2 : GameRoom}
    (h : applyMoves r ms = Except.ok r2) :
    ms.length + r2.remainingObjects ≤ r.remainingObjects ∧
    (ms = [] → r2 = r) ∧
    (ms ≠ [] → r2.remainingObjects = 0 → r2.status = Status.over) := by
  induction ms generalizing r with
  | nil =>
    unfold applyMoves at h
    injection h with h
    subst h
    exact ⟨by simp, fun _ => rfl, fun hne => absurd rfl hne⟩
  | cons m rest ih =>
    obtain ⟨p, n⟩ := m
    unfold applyMoves at h
    cases hsm : submitMove r p n with
    | error e => rw [hsm] at h; cases h
    | ok r1 =>
      rw [hsm] at h
      obtain ⟨hle, hnil, hterm⟩ := ih h
      obtain ⟨-, -, h1n, -, -, hsub, -, -, htm, -⟩ := submitMove_ok_spec hsm
      refine ⟨?_, ?_, ?_⟩
      · simp only [List.length_cons]
        omega
      · intro hfalse; cases hfalse
      · intro _ h0
        cases rest with
        | nil =>
          have hr2 : r2 = r1 := hnil rfl
          subst hr2
          exact (htm h0).1
        | cons x xs => exact hterm (by simp) h0

/-- C4: on a 2-player subtraction game, every fully accepted move sequence has
at most `remainingObjects` moves, and a sequence of exactly that many moves
leaves the game terminal. -/
theorem nim_terminates_within_remaining (r : GameRoom) (ms : List (String × Nat))
    (r2 : GameRoom) (h : applyMoves r ms = Except.ok r2) :
    ms.length ≤ r.remainingObjects ∧
    (ms.length = r.remainingObjects → 0 < r.remainingObjects →
      r2.status = Status.over) := by
  obtain ⟨hle, hnil, hterm⟩ := applyMoves_spec h
  constructor
  · omega
  · intro hlen hpos
    have h0 : r2.remainingObjects = 0 := by omega
    have hne : ms ≠ [] := by
      intro he
      subst he
      simp only [List.length_nil] at hlen
      omega
    exact hterm hne h0

/-- C4 witness: from `roomTwoLeft` the sequence Alice 1, Bob 1 is fully
accepted, has 2 = `remainingObjects` moves, and ends the game. -/
theorem nim_terminates_within_remaining_witness :
    ([("Alice", 1), ("Bob", 1)] : List (String × Nat)).length ≤
      roomTwoLeft.remainingObjects ∧
    (([("Alice", 1), ("Bob", 1)] : List (String × Nat)).length =
        roomTwoLeft.remainingObjects →
      0 < roomTwoLeft.remainingObjects →
      ({ players := ["Alice", "Bob"], moves := [⟨"Alice", 1⟩, ⟨"Bob", 1⟩],
         remainingObjects := 0, status := Status.over,
         winners := some ["Alice"] } : GameRoom).status = Status.over) :=
  nim_terminates_within_remaining roomTwoLeft [("Alice", 1), ("Bob", 1)]
    { players := ["Alice", "Bob"], moves := [⟨"Alice", 1⟩, ⟨"Bob", 1⟩],
      remainingObjects := 0, status := Status.over,
      winners := some ["Alice"] } (by rfl)

/-- After the terminal state every move submission is rejected with `GameOver`. -/
theorem submitMove_over {r : GameRoom} (hs : r.status = Status.over)
    (p : String) (n : Nat) :
    submitMove r p n = Except.error GameError.gameOver := by
  unfold submitMove
  rw [hs]
  simp

/-- A room that is `OVER` is left untouched by `leaveRoom`. -/
theorem leaveRoom_over {r : GameRoom} (hs : r.status = Status.over)
    (p : String) : leaveRoom r p = r := by
  unfold leaveRoom
  rw [hs]
  split_ifs <;> rfl


/-- Step reduction for a join action. -/
theorem step_join_eq (r : GameRoom) (p : String) :
    step r (GameAction.join p) =
      (match joinRoom r p with
       | Except.ok r2 => r2
       | Except.error _ => r) := rfl

/-- Step reduction for a leave action (a leave is always acknowledged). -/
theorem step_leave_eq (r : GameRoom) (p : String) :
    step r (GameAction.leave p) = leaveRoom r p := rfl

/-- Step reduction for a move action. -/
theorem step_move_eq (r : GameRoom) (p : String) (n : Nat) :
    step r (GameAction.move p n) =
      (match submitMove r p n with
       | Except.ok r2 => r2
       | Except.error _ => r) := rfl

/-- Everything an accepted `joinRoom` guarantees: the player is appended, the
move log, pile and winners are untouched, and the room flips to `IN_PROGRESS`
exactly when the roster reaches capacity. -/
theorem joinRoom_ok_spec {r r2 : GameRoom} {p : String}
    (h : joinRoom r p = Except.ok r2) :
    r2.players = r.players ++ [p] ∧ r2.moves = r.moves ∧
    r2.remainingObjects = r.remainingObjects ∧ r2.winners = r.winners ∧
    r.status ≠ Status.over ∧ p ∉ r.players ∧ r.players.length < maxPlayers ∧
    ((r2.status = Status.inProgress ∧ r2.players.length = maxPlayers) ∨
     (r2.status = r.status ∧ r2.players.length ≠ maxPlayers)) := by
  unfold joinRoom at h
  split_ifs at h with h1 h2 h3 h4
  · injection h with h
    subst h
    refine ⟨rfl, rfl, rfl, rfl, h1, h2, by omega, Or.inl ⟨rfl, h4⟩⟩
  · injection h with h
    subst h
    refine ⟨rfl, rfl, rfl, rfl, h1, h2, by omega, Or.inr ⟨rfl, h4⟩⟩

/-- One step never moves the status backward along the lifecycle. -/
theorem statusRank_le_step (r : GameRoom) (a : GameAction) :
    statusRank r.status ≤ statusRank (step r a).status := by
  cases a with
  | join p =>
    rw [step_join_eq]
    cases hj : joinRoom r p with
    | error e => exact Nat.le_refl _
    | ok r2 =>
      show statusRank r.status ≤ statusRank r2.status
      obtain ⟨-, -, -, -, hno, -, -, hst⟩ := joinRoom_ok_spec hj
      rcases hst with ⟨h2, -⟩ | ⟨h2, -⟩
      · rw [h2]
        cases hs : r.status
        · simp [statusRank, hs]
        · simp [statusRank, hs]
        · exact absurd hs hno
      · rw [h2]
  | leave p =>
    rw [step_leave_eq]
    unfold leaveRoom
    split_ifs with hp
    · cases hs : r.status <;> simp [statusRank, hs]
    · exact Nat.le_refl _
  | move p n =>
    rw [step_move_eq]
    cases hsm : submitMove r p n with
    | error e => exact Nat.le_refl _
    | ok r2 =>
      show statusRank r.status ≤ statusRank r2.status
      obtain ⟨hst, -, -, -, -, -, -, -, htm, hntm⟩ := submitMove_ok_spec hsm
      rw [hst]
      by_cases h0 : r2.remainingObjects = 0
      · rw [(htm h0).1]
        decide
      · rw [(hntm h0).1]

/-- One step only ever appends to the move log. -/
theorem moves_append_step (r : GameRoom) (a : GameAction) :
    ∃ t, (step r a).moves = r.moves ++ t := by
  cases a with
  | join p =>
    refine ⟨[], ?_⟩
    rw [step_join_eq]
    cases hj : joinRoom r p with
    | error e => simp
    | ok r2 =>
      obtain ⟨-, hm, -⟩ := joinRoom_ok_spec hj
      simp [hm]
  | leave p =>
    refine ⟨[], ?_⟩
    rw [step_leave_eq]
    unfold leaveRoom
    split_ifs with hp
    · cases hs : r.status <;> simp
    · simp
  | move p n =>
    rw [step_move_eq]
    cases hsm : submitMove r p n with
    | error e => exact ⟨[], by simp⟩
    | ok r2 =>
      obtain ⟨-, -, -, -, -, -, hmv, -⟩ := submitMove_ok_spec hsm
      exact ⟨[⟨p, n⟩], hmv⟩

/-- The room invariants are preserved by every step. -/
theorem roomInv_step {r : GameRoom} (hr : RoomInv r) (a : GameAction) :
    RoomInv (step r a) := by
  obtain ⟨hcap, hfull, hwin⟩ := hr
  cases a with
  | join p =>
    rw [step_join_eq]
    cases hj : joinRoom r p with
    | error e => exact ⟨hcap, hfull, hwin⟩
    | ok r2 =>
      show RoomInv r2
      obtain ⟨hpl, -, -, hw, hno, -, hlt, hst⟩ := joinRoom_ok_spec hj
      have hlen : r2.players.length = r.players.length + 1 := by simp [hpl]
      rcases hst with ⟨h2, hfl⟩ | ⟨h2, hfl⟩
      · refine ⟨by omega, fun _ => hfl, ?_⟩
        intro hov
        rw [h2] at hov
        cases hov
      · refine ⟨by omega, ?_, ?_⟩
        · intro hip
          rw [h2] at hip
          exact absurd (hfull hip) (by omega)
        · intro hov
          rw [h2] at hov
          exact absurd hov hno
  | leave p =>
    rw [step_leave_eq]
    unfold leaveRoom
    split_ifs with hp
    · cases hs : r.status
      · refine ⟨?_, ?_, ?_⟩
        · exact le_trans (List.length_erase_le p r.players) hcap
        · intro hip
          cases hip
        · intro hov
          cases hov
      · refine ⟨?_, ?_, ?_⟩
        · exact le_trans (List.length_erase_le p r.players) hcap
        · intro hip
          cases hip
        · intro hov
          simp
      · exact ⟨hcap, hfull, hwin⟩
    · exact ⟨hcap, hfull, hwin⟩
  | move p n =>
    rw [step_move_eq]
    cases hsm : submitMove r p n with
    | error e => exact ⟨hcap, hfull, hwin⟩
    | ok r2 =>
      show RoomInv r2
      obtain ⟨hst, -, -, -, -, -, -, hpl, htm, hntm⟩ := submitMove_ok_spec hsm
      refine ⟨by rw [hpl]; exact hcap, ?_, ?_⟩
      · intro _
        rw [hpl]
        exact hfull hst
      · intro hov
        by_cases h0 : r2.remainingObjects = 0
        · rw [(htm h0).2]
          rfl
        · rw [(hntm h0).1] at hov
          cases hov

/-- The room invariants hold along every run from a fresh room. -/
theorem roomInv_runActions (N : Nat) (acts : List GameAction) :
    RoomInv (runActions (initialRoom N) acts) := by
  have h0 : RoomInv (initialRoom N) := by
    refine ⟨?_, ?_, ?_⟩ <;> simp [initialRoom, maxPlayers]
  have main : ∀ (acts : List GameAction) (r : GameRoom),
      RoomInv r → RoomInv (runActions r acts) := by
    intro acts
    induction acts with
    | nil => intro r hr; exact hr
    | cons a as ih =>
      intro r hr
      have h1 : runActions r (a :: as) = runActions (step r a) as := by
        simp [runActions]
      rw [h1]
      exact ih (step r a) (roomInv_step hr a)
  exact main acts (initialRoom N) h0

/-- C5: along every action sequence from a fresh room, the status only moves
forward along `WAITING_TO_START → IN_PROGRESS → OVER`; `IN_PROGRESS` implies a
full roster; `OVER` implies winners are set and every further move is rejected
with `GameOver`; and the move log is append-only. -/
theorem room_lifecycle_invariants (N : Nat) (acts : List GameAction)
    (a : GameAction) :
    statusRank (runActions (initialRoom N) acts).status ≤
      statusRank (step (runActions (initialRoom N) acts) a).status ∧
    ((step (runActions (initialRoom N) acts) a).status = Status.inProgress →
      (step (runActions (initialRoom N) acts) a).players.length = maxPlayers) ∧
    ((step (runActions (initialRoom N) acts) a).status = Status.over →
      (step (runActions (initialRoom N) acts) a).winners.isSome = true ∧
      ∀ p k, submitMove (step (runActions (initialRoom N) acts) a) p k =
        Except.error GameError.gameOver) ∧
    (∃ t, (step (runActions (initialRoom N) acts) a).moves =
      (runActions (initialRoom N) acts).moves ++ t) := by
  have hinv : RoomInv (step (runActions (initialRoom N) acts) a) :=
    roomInv_step (roomInv_runActions N acts) a
  obtain ⟨-, hfull, hwin⟩ := hinv
  refine ⟨statusRank_le_step _ a, hfull, ?_, moves_append_step _ a⟩
  intro hov
  exact ⟨hwin hov, fun p k => submitMove_over hov p k⟩

/-- C5 witness: one join on a fresh 3-object room keeps every lifecycle
invariant. -/
theorem room_lifecycle_invariants_witness :
    statusRank (runActions (initialRoom 3) []).status ≤
      statusRank (step (runActions (initialRoom 3) []) (GameAction.join "Alice")).status ∧
    ((step (runActions (initialRoom 3) []) (GameAction.join "Alice")).status =
        Status.inProgress →
      (step (runActions (initialRoom 3) []) (GameAction.join "Alice")).players.length =
        maxPlayers) ∧
    ((step (runActions (initialRoom 3) []) (GameAction.join "Alice")).status =
        Status.over →
      (step (runActions (initialRoom 3) []) (GameAction.join "Alice")).winners.isSome =
        true ∧
      ∀ p k, submitMove (step (runActions (initialRoom 3) []) (GameAction.join "Alice"))
          p k = Except.error GameError.gameOver) ∧
    (∃ t, (step (runActions (initialRoom 3) []) (GameAction.join "Alice")).moves =
      (runActions (initialRoom 3) []).moves ++ t) :=
  room_lifecycle_invariants 3 [] (GameAction.join "Alice")

/-- Reduction of `leaveRoom` for a present player in a waiting room. -/
theorem leaveRoom_waiting {r : GameRoom} {p : String} (hp : p ∈ r.players)
    (hs : r.status = Status.waitingToStart) :
    leaveRoom r p = { r with players := r.players.erase p } := by
  unfold leaveRoom
  rw [if_pos hp, hs]

/-- Reduction of `leaveRoom` for a present player in a running room:
forfeiture. -/
theorem leaveRoom_inProgress {r : GameRoom} {p : String} (hp : p ∈ r.players)
    (hs : r.status = Status.inProgress) :
    leaveRoom r p =
      { r with
        players := r.players.erase p,
        status := Status.over,
        winners := some (r.players.erase p) } := by
  unfold leaveRoom
  rw [if_pos hp, hs]

/-- Reduction of `leaveRoom` for an absent player. -/
theorem leaveRoom_absent {r : GameRoom} {p : String} (hp : p ∉ r.players) :
    leaveRoom r p = r := by
  unfold leaveRoom
  rw [if_neg hp]

/-- C6: for a room without duplicate roster entries, leaving twice equals
leaving once, and one leave is a no-op for an absent player or an `OVER` room,
a plain roster removal while `WAITING_TO_START`, and a forfeiture (remaining
players win, room closes) while `IN_PROGRESS`. -/
theorem leaveRoom_idempotent (r : GameRoom) (p : String)
    (hnd : r.players.Nodup) :
    leaveRoom (leaveRoom r p) p = leaveRoom r p ∧
    (p ∉ r.players → leaveRoom r p = r) ∧
    (r.status = Status.over → leaveRoom r p = r) ∧
    (p ∈ r.players → r.status = Status.waitingToStart →
      (leaveRoom r p).players = r.players.erase p ∧
      (leaveRoom r p).status = Status.waitingToStart ∧
      (leaveRoom r p).winners = r.winners) ∧
    (p ∈ r.players → r.status = Status.inProgress →
      (leaveRoom r p).status = Status.over ∧
      (leaveRoom r p).winners = some (r.players.erase p)) := by
  refine ⟨?_, fun hp => leaveRoom_absent hp, fun hs => leaveRoom_over hs p, ?_, ?_⟩
  · by_cases hp : p ∈ r.players
    · cases hs : r.status
      · rw [leaveRoom_waiting hp hs]
        exact leaveRoom_absent (by simpa using hnd.not_mem_erase)
      · rw [leaveRoom_inProgress hp hs]
        exact leaveRoom_over rfl p
      · rw [leaveRoom_over hs p, leaveRoom_over hs p]
    · rw [leaveRoom_absent hp, leaveRoom_absent hp]
  · intro hp hs
    rw [leaveRoom_waiting hp hs]
    exact ⟨rfl, by rw [hs], rfl⟩
  · intro hp hs
    rw [leaveRoom_inProgress hp hs]
    exact ⟨rfl, rfl⟩

/-- C6 witness: Alice leaving the waiting room `roomWaiting` twice equals
leaving once, with the spelled-out single-leave effects. -/
theorem leaveRoom_idempotent_witness :
    leaveRoom (leaveRoom roomWaiting "Alice") "Alice" =
      leaveRoom roomWaiting "Alice" ∧
    ("Alice" ∉ roomWaiting.players → leaveRoom roomWaiting "Alice" = roomWaiting) ∧
    (roomWaiting.status = Status.over → leaveRoom roomWaiting "Alice" = roomWaiting) ∧
    ("Alice" ∈ roomWaiting.players → roomWaiting.status = Status.waitingToStart →
      (leaveRoom roomWaiting "Alice").players = roomWaiting.players.erase "Alice" ∧
      (leaveRoom roomWaiting "Alice").status = Status.waitingToStart ∧
      (leaveRoom roomWaiting "Alice").winners = roomWaiting.winners) ∧
    ("Alice" ∈ roomWaiting.players → roomWaiting.status = Status.inProgress →
      (leaveRoom roomWaiting "Alice").status = Status.over ∧
      (leaveRoom roomWaiting "Alice").winners =
        some (roomWaiting.players.erase "Alice")) :=
  leaveRoom_idempotent roomWaiting "Alice" (by decide)

/-- Leaving never touches the move log. -/
theorem leaveRoom_moves (r : GameRoom) (p : String) :
    (leaveRoom r p).moves = r.moves := by
  unfold leaveRoom
  split_ifs with hp
  · cases hs : r.status <;> rfl
  · rfl

/-- Joining a room that is `OVER` is rejected. -/
theorem joinRoom_over {r : GameRoom} (hs : r.status = Status.over)
    (p : String) : joinRoom r p = Except.error GameError.gameOver := by
  unfold joinRoom
  rw [hs]
  simp

/-- Once a room is `OVER` it never emits another game-state snapshot. -/
theorem moveSnapshots_over {r : GameRoom} (hs : r.status = Status.over)
    (acts : List GameAction) : moveSnapshots r acts = [] := by
  induction acts generalizing r with
  | nil => rfl
  | cons a as ih =>
    cases a with
    | join p =>
      simp only [moveSnapshots, stepE, joinRoom_over hs p]
      exact ih hs
    | leave p =>
      simp only [moveSnapshots, stepE, leaveRoom_over hs p]
      exact ih hs
    | move p n =>
      simp only [moveSnapshots, stepE, submitMove_over hs p n]
      exact ih hs

/-- The emitted snapshot sequence is strictly increasing in `moves.length`,
starting from the current room state. -/
theorem moveSnapshots_chain (acts : List GameAction) : ∀ r : GameRoom,
    List.Chain' (fun s t => s.moves.length < t.moves.length)
      (r :: moveSnapshots r acts) := by
  induction acts with
  | nil =>
    intro r
    simp [moveSnapshots]
  | cons a as ih =>
    intro r
    cases a with
    | join p =>
      cases hj : joinRoom r p with
      | error e =>
        have hred : moveSnapshots r (GameAction.join p :: as) =
            moveSnapshots r as := by
          simp only [moveSnapshots, stepE, hj]
        rw [hred]
        exact ih r
      | ok r2 =>
        have hred : moveSnapshots r (GameAction.join p :: as) =
            moveSnapshots r2 as := by
          simp only [moveSnapshots, stepE, hj]
        rw [hred]
        obtain ⟨-, hm, -⟩ := joinRoom_ok_spec hj
        have h2 := ih r2
        rw [List.chain'_cons'] at h2 ⊢
        refine ⟨?_, h2.2⟩
        intro y hy
        have h3 := h2.1 y hy
        simp only [hm] at h3
        exact h3
    | leave p =>
      have hred : moveSnapshots r (GameAction.leave p :: as) =
          moveSnapshots (leaveRoom r p) as := by
        simp only [moveSnapshots, stepE]
      rw [hred]
      have h2 := ih (leaveRoom r p)
      rw [List.chain'_cons'] at h2 ⊢
      refine ⟨?_, h2.2⟩
      intro y hy
      have h3 := h2.1 y hy
      simp only [leaveRoom_moves] at h3
      exact h3
    | move p n =>
      cases hsm : submitMove r p n with
      | error e =>
        have hred : moveSnapshots r (GameAction.move p n :: as) =
            moveSnapshots r as := by
          simp only [moveSnapshots, stepE, hsm]
        rw [hred]
        exact ih r
      | ok r2 =>
        have hred : moveSnapshots r (GameAction.move p n :: as) =
            r2 :: moveSnapshots r2 as := by
          simp only [moveSnapshots, stepE, hsm]
        rw [hred]
        rw [List.chain'_cons]
        obtain ⟨-, -, -, -, -, -, hmv, -⟩ := submitMove_ok_spec hsm
        exact ⟨by simp [hmv], ih r2⟩

/-- After a snapshot with terminal status, no further snapshot is emitted. -/
theorem moveSnapshots_over_stops (acts : List GameAction) : ∀ (r : GameRoom)
    (l1 : List GameRoom) (s : GameRoom) (l2 : List GameRoom),
    moveSnapshots r acts = l1 ++ s :: l2 → s.status = Status.over →
    l2 = [] := by
  induction acts with
  | nil =>
    intro r l1 s l2 hdec _
    rw [show moveSnapshots r [] = [] from rfl] at hdec
    exact absurd hdec (by simp)
  | cons a as ih =>
    intro r l1 s l2 hdec hs
    cases a with
    | join p =>
      cases hj : joinRoom r p with
      | error e =>
        simp only [moveSnapshots, stepE, hj] at hdec
        exact ih r l1 s l2 hdec hs
      | ok r2 =>
        simp only [moveSnapshots, stepE, hj] at hdec
        exact ih r2 l1 s l2 hdec hs
    | leave p =>
      simp only [moveSnapshots, stepE] at hdec
      exact ih (leaveRoom r p) l1 s l2 hdec hs
    | move p n =>
      cases hsm : submitMove r p n with
      | error e =>
        simp only [moveSnapshots, stepE, hsm] at hdec
        exact ih r l1 s l2 hdec hs
      | ok r2 =>
        simp only [moveSnapshots, stepE, hsm] at hdec
        cases l1 with
        | nil =>
          simp only [List.nil_append] at hdec
          injection hdec with h1 h2
          subst h1
          rw [← h2]
          exact moveSnapshots_over hs as
        | cons x l1 =>
          simp only [List.cons_append] at hdec
          injection hdec with h1 h2
          exact ih r2 l1 s l2 h2 hs

/-- C7: across the snapshots the engine broadcasts for one room, the
`moves.length` values are strictly increasing (so in emission order no
observer ever gets an older snapshot after a newer one), and once a snapshot
has status `OVER` no further game-state snapshot is emitted. -/
theorem broadcast_snapshots_monotone (r : GameRoom) (acts : List GameAction) :
    List.Chain' (fun s t => s.moves.length < t.moves.length)
      (r :: moveSnapshots r acts) ∧
    (∀ l1 s l2, moveSnapshots r acts = l1 ++ s :: l2 →
      s.status = Status.over → l2 = []) :=
  ⟨moveSnapshots_chain acts r,
   fun l1 s l2 h hs => moveSnapshots_over_stops acts r l1 s l2 h hs⟩

/-- C7 witness: the two accepted moves from `roomTwoLeft` emit snapshots with
strictly growing move logs and stop at the terminal one. -/
theorem broadcast_snapshots_monotone_witness :
    List.Chain' (fun s t => s.moves.length < t.moves.length)
      (roomTwoLeft :: moveSnapshots roomTwoLeft
        [GameAction.move "Alice" 1, GameAction.move "Bob" 1]) ∧
    (∀ l1 s l2, moveSnapshots roomTwoLeft
        [GameAction.move "Alice" 1, GameAction.move "Bob" 1] = l1 ++ s :: l2 →
      s.status = Status.over → l2 = []) :=
  broadcast_snapshots_monotone roomTwoLeft
    [GameAction.move "Alice" 1, GameAction.move "Bob" 1]

/-- C8: `handleGameError` never mutates the snapshot the client already
holds: `gameState` is unchanged and only the `error` field is updated. -/
theorem handleGameError_preserves_snapshot (s : GamePageState)
    (e : GameErrorPayload) :
    (handleGameError s e).gameState = s.gameState ∧
    (handleGameError s e).error = some e.error :=
  ⟨rfl, rfl⟩

/-- An input sequence with no event parsing into `[1, 3]` leaves the `move`
state untouched. -/
theorem foldl_handleInputChange_invalid (vs : List String) (m : Int)
    (h : ∀ v ∈ vs, validNimInput v = false) :
    vs.foldl handleInputChange m = m := by
  induction vs generalizing m with
  | nil => rfl
  | cons v vs ih =>
    have hv := h v (by simp)
    have hstep : handleInputChange m v = m := by
      unfold handleInputChange
      unfold validNimInput at hv
      cases hp : jsParseInt v with
      | none => rfl
      | some k =>
        rw [hp] at hv
        simp only [decide_eq_false_iff_not] at hv
        simp [hv]
    rw [List.foldl_cons, hstep]
    exact ih m (fun w hw => h w (by simp [hw]))

/-- C9: the Nim client's `move` state starts at 0 and `handleInputChange`
updates it only for inputs parsing to an integer in `[1, 3]`; after any input
sequence with no such event, submitting emits a `makeMove` payload with
`numObjects = 0`. -/
theorem nim_client_emits_zero (vs : List String) (u : String)
    (h : ∀ v ∈ vs, validNimInput v = false) :
    vs.foldl handleInputChange initialMove = 0 ∧
    (handleMakeMove u (vs.foldl handleInputChange initialMove)).numObjects = 0 := by
  have h0 := foldl_handleInputChange_invalid vs initialMove h
  exact ⟨h0, by rw [h0]; rfl⟩

/-- C9 witness: the inputs "abc", "0", "7", "-2", "" never update `move`, so
the emitted payload carries `numObjects = 0`. -/
theorem nim_client_emits_zero_witness :
    (["abc", "0", "7", "-2", ""].foldl handleInputChange initialMove = 0) ∧
    (handleMakeMove "user1"
      (["abc", "0", "7", "-2", ""].foldl handleInputChange initialMove)).numObjects
      = 0 :=
  nim_client_emits_zero ["abc", "0", "7", "-2", ""] "user1" (by decide)

/-- C10: a `created` chat update whose chat does not include the current user
leaves the hook state unchanged, and any update type other than `created` or
`newMessage` throws. -/
theorem chatUpdate_created_filtered (username : String) (s : DMState)
    (u : ChatUpdatePayload) :
    (u.type = "created" → u.chat.participants.contains username = false →
      handleChatUpdate username s u = Except.ok s) ∧
    (u.type ≠ "created" → u.type ≠ "newMessage" →
      handleChatUpdate username s u =
        Except.error ("Invalid chat update type: " ++ u.type)) := by
  constructor
  · intro hc hnp
    unfold handleChatUpdate
    rw [if_pos hc, hnp]
    simp
  · intro hnc hnm
    unfold handleChatUpdate
    rw [if_neg hnc, if_neg hnm]

/-- C10 witness: a `created` update for a chat between two other users leaves
an empty state unchanged, and a `deleted` update throws. -/
theorem chatUpdate_created_filtered_witness :
    handleChatUpdate "alice" ⟨[], none⟩
      ⟨⟨"c1", ["bob", "carol"], []⟩, "created"⟩ =
      Except.ok (⟨[], none⟩ : DMState) ∧
    handleChatUpdate "alice" ⟨[], none⟩
      ⟨⟨"c1", ["bob", "carol"], []⟩, "deleted"⟩ =
      Except.error ("Invalid chat update type: " ++ "deleted") :=
  ⟨(chatUpdate_created_filtered "alice" ⟨[], none⟩
      ⟨⟨"c1", ["bob", "carol"], []⟩, "created"⟩).1 rfl (by decide),
   (chatUpdate_created_filtered "alice" ⟨[], none⟩
      ⟨⟨"c1", ["bob", "carol"], []⟩, "deleted"⟩).2 (by decide) (by decide)⟩
